import Mathlib

/-! Verification development for the ComplexPlot expression compiler.

The embedded code comprises the tokenizer, the shunting-yard parser, the
symbol tables, the two code generators, the `Expression` facade, the host
complex-arithmetic module, and the shader library's `c_pow`.  Machine
floating-point numbers are idealized: exact rationals carry the literal
values through the tokenizer/parser/codegen pipeline, real numbers carry
the transcendental evaluator semantics, and a dedicated IEEE special-value
type (`FpVal`) carries the Infinity/NaN propagation behavior of the
arithmetic module where that behavior is the point of a claim.
Object-table lookups (`OPERATORS[k]`, `FUNCTIONS[k]`, `CONSTANTS[k]`) are
modelled as own-key association-list lookups. -/

/-- Model of `Math.atan2 y x` (and GLSL `atan(y, x)`): the argument of the
complex number `x + y*i`, which agrees with atan2 on all non-zero inputs
and at the origin (both give 0). -/
noncomputable def satan2 (y x : ℝ) : ℝ := Complex.arg ⟨x, y⟩

namespace CPlot

/-- Token kinds, from `TokenType` in the tokenizer module. -/
inductive TokenType : Type
  | Number | Identifier | Operator | LeftParen | RightParen | Comma
deriving DecidableEq, Repr

/-- A lexical token `{type, value}`. -/
structure Token where
  type : TokenType
  value : String
deriving DecidableEq, Repr

/-- The distinct error conditions raised by the compiler core.  Each
constructor corresponds to one `throw new Error(...)` site in the source
(message text noted alongside), plus `typeError` for the JS `TypeError`
raised by reading a property of `undefined` after a failed table lookup. -/
inductive PErr : Type
  | emptyInput                           -- "Function cannot be empty."
  | invalidChars                         -- "Invalid characters in function."
  | unexpectedAfter (tok last : String)  -- "Syntax Error: Unexpected token ... after ...."
  | opAfterOp (tok last : String)        -- "Syntax Error: Operator ... cannot follow operator ...."
  | unknownIdent (name : String)         -- "Syntax Error: Unknown identifier ...."
  | mismatchedParens                     -- "Syntax Error: Mismatched parentheses."
  | invalidUnaryMinus                    -- "Syntax Error: Invalid unary minus."
  | notEnoughArgs (name : String)        -- "Syntax Error: Not enough arguments for function ...."
  | missingOperand (op : String)         -- "Syntax Error: Missing operand for operator ...."
  | invalidStructure                     -- "Syntax Error: Invalid expression structure."
  | typeError
deriving DecidableEq, Repr

/-- The JS `\s` whitespace class, used by `input.replace(/\s+/g, '')`. -/
def isJsSpace (c : Char) : Bool :=
  c = ' ' || c = '\t' || c = '\n' || c = '\x0b' || c = '\x0c' || c = '\r' ||
  c = '\u00A0' || c = '\u1680' || ('\u2000' ≤ c && c ≤ '\u200A') ||
  c = '\u2028' || c = '\u2029' || c = '\u202F' || c = '\u205F' ||
  c = '\u3000' || c = '\uFEFF'

/-- First character of the `[a-zA-Z_][a-zA-Z0-9_]*` identifier alternative. -/
def isWordStart (c : Char) : Bool := c.isAlpha || c = '_'

/-- Continuation character of the identifier alternative. -/
def isWordChar (c : Char) : Bool := c.isAlpha || c.isDigit || c = '_'

/-- The single-character operator alternative `[+\-*/^]`. -/
def isOpChar (c : Char) : Bool :=
  c = '+' || c = '-' || c = '*' || c = '/' || c = '^'

/-- One attempt of `TOKEN_REGEX` at the current position: returns the
(leftmost-alternative, greedy) lexeme and the remaining input, or `none`
when no alternative matches at this position.  The alternatives are
identifier, numeric literal `\d+\.?\d*`, single-character operator,
parenthesis, and comma; their leading-character sets are disjoint. -/
def munch : List Char → Option (String × List Char)
  | [] => none
  | c :: cs =>
    if isWordStart c then
      some (⟨c :: cs.takeWhile isWordChar⟩, cs.dropWhile isWordChar)
    else if c.isDigit then
      match cs.dropWhile Char.isDigit with
      | '.' :: cs2 =>
        some (⟨c :: cs.takeWhile Char.isDigit ++ '.' :: cs2.takeWhile Char.isDigit⟩,
          cs2.dropWhile Char.isDigit)
      | _ => some (⟨c :: cs.takeWhile Char.isDigit⟩, cs.dropWhile Char.isDigit)
    else if isOpChar c || c = '(' || c = ')' || c = ',' then
      some (⟨[c]⟩, cs)
    else none

/-- The global-regex scan performed by `input.match(TOKEN_REGEX)`: collect
successive matches left to right; a character at which no alternative
matches is stepped over (this is how a JS global `match` behaves — it does
NOT fail on such characters).  The fuel argument only bounds the recursion;
`scan cs.length cs` never exhausts it because every iteration consumes at
least one character. -/
def scan : ℕ → List Char → List String
  | 0, _ => []
  | _, [] => []
  | fuel + 1, c :: cs =>
    match munch (c :: cs) with
    | some (lex, rest) => lex :: scan fuel rest
    | none => scan fuel cs

/-- Model of `!isNaN(parseFloat(v))` on the lexeme language produced by
`munch`: a lexeme parses as a number iff it starts with a digit, or it is
an identifier lexeme with prefix `"Infinity"` (which JS `parseFloat`
accepts); operator, parenthesis and comma lexemes and all other
identifiers give NaN. -/
def jsParseFloatIsNum (v : String) : Bool :=
  (match v.data with
   | c :: _ => c.isDigit
   | [] => false) || "Infinity".isPrefixOf v

/-- Numeric value of a lexeme under `parseFloat`, as an exact rational.
Digit-led lexemes `\d+\.?\d*` get their exact decimal value.  Lexemes on
which `parseFloat` yields NaN or Infinity fall outside the rational
idealization and are mapped to 0; no claim depends on those values (they
can only arise from `Infinity`-prefixed identifiers, and the parser
invariant proved below never inspects `Constant` payloads). -/
def digitsToNat (ds : List Char) : ℕ :=
  ds.foldl (fun n c => 10 * n + (c.toNat - '0'.toNat)) 0

def qParseFloat (s : String) : ℚ :=
  match s.data with
  | [] => 0
  | c :: _ =>
    if c.isDigit then
      let ip := s.data.takeWhile Char.isDigit
      let rest := s.data.dropWhile Char.isDigit
      match rest with
      | '.' :: fs =>
        let fr := fs.takeWhile Char.isDigit
        (digitsToNat ip : ℚ) + (digitsToNat fr : ℚ) / ((10 : ℚ) ^ fr.length)
      | _ => (digitsToNat ip : ℚ)
    else 0

/-- Classification step of `tokenize`: `matches.map(value => ...)`.
The checks are performed in source order: number first (via `parseFloat`),
then operator (`/[+\-*/^]/.test(value)`, i.e. *contains* an operator
character), then the bracket/comma literals, else identifier. -/
def classify (v : String) : Token :=
  if jsParseFloatIsNum v then ⟨.Number, v⟩
  else if v.data.any isOpChar then ⟨.Operator, v⟩
  else if v = "(" then ⟨.LeftParen, v⟩
  else if v = ")" then ⟨.RightParen, v⟩
  else if v = "," then ⟨.Comma, v⟩
  else ⟨.Identifier, v⟩

/-- `tokenize(input)`: reject the empty string (`!input`), strip all
whitespace, run the global regex match (which returns null — here the
empty list — only when NO lexeme matched anywhere), and classify the
matched lexemes. -/
def tokenize (input : String) : Except PErr (List Token) :=
  if input = "" then .error .emptyInput
  else
    let stripped := input.data.filter (fun c => !(isJsSpace c))
    let ms := scan stripped.length stripped
    if ms = [] then .error .invalidChars
    else .ok (ms.map classify)

/-! ### Symbol tables (`definitions.ts`) -/

inductive Associativity : Type
  | left | right
deriving DecidableEq, Repr

/-- Entry of the `OPERATORS` table.  The `js` field of the source holds the
static method `Complex.add` etc.; `generateJs` only ever reads its `.name`
(e.g. `"add"`), recorded here as `jsName`, and the evaluator semantics of
that method is given by `jsCall` below. -/
structure OperatorInfo where
  precedence : ℕ
  associativity : Associativity
  glsl : String
  jsName : String
deriving DecidableEq, Repr

def OPERATORS : List (String × OperatorInfo) :=
  [("+", ⟨2, .left, "c_add", "add"⟩),
   ("-", ⟨2, .left, "c_sub", "sub"⟩),
   ("*", ⟨3, .left, "c_mul", "mul"⟩),
   ("/", ⟨3, .left, "c_div", "div"⟩),
   ("^", ⟨4, .right, "c_pow", "pow"⟩)]

/-- Entry of the `FUNCTIONS` table (arity, GLSL name, JS method name). -/
structure FunctionInfo where
  arity : ℕ
  glsl : String
  jsName : String
deriving DecidableEq, Repr

def FUNCTIONS : List (String × FunctionInfo) :=
  [("sin", ⟨1, "c_sin", "sin"⟩),
   ("cos", ⟨1, "c_cos", "cos"⟩),
   ("sinh", ⟨1, "c_sinh", "sinh"⟩),
   ("cosh", ⟨1, "c_cosh", "cosh"⟩),
   ("exp", ⟨1, "c_exp", "exp"⟩),
   ("log", ⟨1, "c_log", "log"⟩),
   ("sqrt", ⟨1, "c_sqrt", "sqrt"⟩),
   ("pow", ⟨2, "c_pow", "pow"⟩)]

/-- Entry of the `CONSTANTS` table.  The source stores a `Complex` value
(whose components are the JS doubles `Math.PI`, `Math.E`, 0 and 1) plus a
GLSL literal.  The JS string forms of the components, as interpolated by
`generateJs`, are recorded here so that the table stays computable; the
real-number values are given by `constValue` in the evaluator section. -/
structure ConstInfo where
  jsRe : String
  jsIm : String
  glsl : String
deriving DecidableEq, Repr

def CONSTANTS : List (String × ConstInfo) :=
  [("pi", ⟨"3.141592653589793", "0", "vec2(3.141592653589793, 0.0)"⟩),
   ("e", ⟨"2.718281828459045", "0", "vec2(2.718281828459045, 0.0)"⟩),
   ("i", ⟨"0", "1", "vec2(0.0, 1.0)"⟩)]

/-! ### AST (`ast.ts`) -/

/-- AST nodes.  The `operator` field is kept as the raw token string: the
TS annotation `Operator` is a compile-time cast (`op.value as Operator`)
with no runtime check, so at runtime any string can occupy the field. -/
inductive ASTNode : Type
  | Constant (value : ℚ)
  | Variable (name : String)
  | BinaryOperation (operator : String) (left right : ASTNode)
  | FunctionCall (functionName : String) (args : List ASTNode)
  | UnaryMinus (operand : ASTNode)
deriving Repr

/-! ### Parser (`parser.ts`) -/

/-- Operator-stack entries: a pushed token (operator, left parenthesis or
function identifier) or the synthetic `{type: 'UnaryMinus'}` marker. -/
inductive StackEntry : Type
  | tokE (t : Token)
  | unaryMinus
deriving DecidableEq, Repr

/-- `applyOperator(outputQueue, op)`.  The output queue is represented
head-newest (JS pushes/pops at the array end).  A function-identifier
entry whose name misses the `FUNCTIONS` table would fault in JS
(`funcInfo.arity` on `undefined`); such entries are never pushed by
`parseTokens`, and the miss is modelled as `typeError`. -/
def applyOperator (out : List ASTNode) (e : StackEntry) : Except PErr (List ASTNode) :=
  match e with
  | .unaryMinus =>
    match out with
    | [] => .error .invalidUnaryMinus
    | operand :: rest => .ok (.UnaryMinus operand :: rest)
  | .tokE t =>
    if t.type = .Identifier then
      match FUNCTIONS.lookup t.value with
      | none => .error .typeError
      | some fi =>
        if out.length < fi.arity then .error (.notEnoughArgs t.value)
        else .ok (.FunctionCall t.value ((out.take fi.arity).reverse) :: out.drop fi.arity)
    else
      match out with
      | right :: left :: rest => .ok (.BinaryOperation t.value left right :: rest)
      | _ => .error (.missingOperand t.value)

/-- The `while` loop of the `Operator` case: keep popping while the top is
a unary-minus marker, or a binary operator over which the incoming
operator `op1` does not bind tighter; stop at a left parenthesis or a
function identifier.  Reading `OPERATORS[op1]` or `OPERATORS[op2]` for a
string outside the table faults in JS (`TypeError`). -/
def popWhileOps (op1 : String) (out : List ASTNode) :
    List StackEntry → Except PErr (List ASTNode × List StackEntry)
  | [] => .ok (out, [])
  | .unaryMinus :: rest =>
    match applyOperator out .unaryMinus with
    | .error e => .error e
    | .ok out2 => popWhileOps op1 out2 rest
  | .tokE t :: rest =>
    if t.type = .LeftParen then .ok (out, .tokE t :: rest)
    else if t.type = .Identifier then .ok (out, .tokE t :: rest)
    else
      match OPERATORS.lookup op1, OPERATORS.lookup t.value with
      | some i1, some i2 =>
        if (i1.associativity = .left ∧ i1.precedence ≤ i2.precedence) ∨
           (i1.associativity = .right ∧ i1.precedence < i2.precedence) then
          match applyOperator out (.tokE t) with
          | .error e => .error e
          | .ok out2 => popWhileOps op1 out2 rest
        else .ok (out, .tokE t :: rest)
      | _, _ => .error .typeError

/-- The `RightParen` case: apply operators until the matching left
parenthesis (error if the stack empties first), pop it, and if a function
identifier is now on top, apply it. -/
def popUntilLParen (out : List ASTNode) :
    List StackEntry → Except PErr (List ASTNode × List StackEntry)
  | [] => .error .mismatchedParens
  | .unaryMinus :: rest =>
    match applyOperator out .unaryMinus with
    | .error e => .error e
    | .ok out2 => popUntilLParen out2 rest
  | .tokE t :: rest =>
    if t.type = .LeftParen then
      match rest with
      | .tokE f :: rest2 =>
        if f.type = .Identifier then
          match applyOperator out (.tokE f) with
          | .error e => .error e
          | .ok out2 => .ok (out2, rest2)
        else .ok (out, rest)
      | _ => .ok (out, rest)
    else
      match applyOperator out (.tokE t) with
      | .error e => .error e
      | .ok out2 => popUntilLParen out2 rest

/-- The final drain loop: apply every remaining stack entry; a leftover
left parenthesis is a mismatched-parentheses error. -/
def drain (out : List ASTNode) : List StackEntry → Except PErr (List ASTNode)
  | [] => .ok out
  | .unaryMinus :: rest =>
    match applyOperator out .unaryMinus with
    | .error e => .error e
    | .ok out2 => drain out2 rest
  | .tokE t :: rest =>
    if t.type = .LeftParen then .error .mismatchedParens
    else
      match applyOperator out (.tokE t) with
      | .error e => .error e
      | .ok out2 => drain out2 rest

def typeOf? (last : Option Token) : Option TokenType :=
  match last with
  | some t => some t.type
  | none => none

def valueOf? (last : Option Token) : String :=
  match last with
  | some t => t.value
  | none => ""

/-- The main token loop of `parseTokens`: syntax validation (note that the
operator-cannot-follow-operator check fires for EVERY operator token,
including `-`, because it precedes the unary-minus special case in the
`switch`), then the shunting-yard dispatch; `lastToken` is updated for
every token, commas included. -/
def shuntLoop : List Token → Option Token → List ASTNode → List StackEntry →
    Except PErr (List ASTNode × List StackEntry)
  | [], _, out, stack => .ok (out, stack)
  | t :: ts, last, out, stack =>
    if (t.type = .Number || t.type = .Identifier) &&
       (typeOf? last = some .Number || typeOf? last = some .Identifier) then
      .error (.unexpectedAfter t.value (valueOf? last))
    else if t.type = .Operator && typeOf? last = some .Operator then
      .error (.opAfterOp t.value (valueOf? last))
    else
      match t.type with
      | .Number => shuntLoop ts (some t) (.Constant (qParseFloat t.value) :: out) stack
      | .Identifier =>
        match FUNCTIONS.lookup t.value with
        | some _ => shuntLoop ts (some t) out (.tokE t :: stack)
        | none =>
          if (CONSTANTS.lookup t.value).isSome || t.value = "z" then
            shuntLoop ts (some t) (.Variable t.value :: out) stack
          else .error (.unknownIdent t.value)
      | .Operator =>
        if t.value = "-" &&
           (typeOf? last = none || typeOf? last = some .Operator ||
            typeOf? last = some .LeftParen) then
          shuntLoop ts (some t) out (.unaryMinus :: stack)
        else
          match popWhileOps t.value out stack with
          | .error e => .error e
          | .ok (out2, stack2) => shuntLoop ts (some t) out2 (.tokE t :: stack2)
      | .LeftParen => shuntLoop ts (some t) out (.tokE t :: stack)
      | .RightParen =>
        match popUntilLParen out stack with
        | .error e => .error e
        | .ok (out2, stack2) => shuntLoop ts (some t) out2 stack2
      | .Comma => shuntLoop ts (some t) out stack

/-- `parseTokens(tokens)`: run the loop, drain the stack, and demand a
single AST in the output queue. -/
def parseTokens (tokens : List Token) : Except PErr ASTNode :=
  match shuntLoop tokens none [] [] with
  | .error e => .error e
  | .ok (out, stack) =>
    match drain out stack with
    | .error e => .error e
    | .ok [a] => .ok a
    | .ok _ => .error .invalidStructure

/-- Front half of `Expression.parse`: tokenize then parse. -/
def parseString (source : String) : Except PErr ASTNode :=
  match tokenize source with
  | .error e => .error e
  | .ok tokens => parseTokens tokens

/-! ### Code generators (`codegen.ts`) -/

mutual

/-- `generateJsNode`: emits the JS expression evaluated later by
`new Function('z', 'Complex', ...)`.  Number formatting of the rational
constant payload is idealized by `toString`; no claim depends on the
literal text.  A `BinaryOperation` whose operator string misses the
`OPERATORS` table, or a `FunctionCall` whose name misses `FUNCTIONS`,
faults in JS when `.js.name` is read from `undefined`; modelled as
`none`. -/
def generateJsNode : ASTNode → Option String
  | .Constant v => some ("new Complex(" ++ toString v ++ ", 0)")
  | .Variable name =>
    match CONSTANTS.lookup name with
    | some ci => some ("new Complex(" ++ ci.jsRe ++ ", " ++ ci.jsIm ++ ")")
    | none => some "z"
  | .BinaryOperation op l r =>
    match OPERATORS.lookup op with
    | none => none
    | some oi =>
      match generateJsNode l, generateJsNode r with
      | some ls, some rs =>
        some ("Complex." ++ oi.jsName ++ "(" ++ ls ++ ", " ++ rs ++ ")")
      | _, _ => none
  | .FunctionCall f args =>
    match FUNCTIONS.lookup f with
    | none => none
    | some fi =>
      match generateJsArgs args with
      | some ss => some ("Complex." ++ fi.jsName ++ "(" ++ String.intercalate ", " ss ++ ")")
      | none => none
  | .UnaryMinus a =>
    match generateJsNode a with
    | some s => some ("Complex.mul(new Complex(-1, 0), " ++ s ++ ")")
    | none => none

def generateJsArgs : List ASTNode → Option (List String)
  | [] => some []
  | a :: rest =>
    match generateJsNode a, generateJsArgs rest with
    | some s, some ss => some (s :: ss)
    | _, _ => none

end

def generateJs (ast : ASTNode) : Option String := generateJsNode ast

mutual

/-- `generateGlslNode`: emits the GLSL expression; `toPrecision(15)`
formatting of the constant is idealized by `toString`. -/
def generateGlslNode : ASTNode → Option String
  | .Constant v => some ("vec2(" ++ toString v ++ ", 0.0)")
  | .Variable name =>
    match CONSTANTS.lookup name with
    | some ci => some ci.glsl
    | none => some "z"
  | .BinaryOperation op l r =>
    match OPERATORS.lookup op with
    | none => none
    | some oi =>
      match generateGlslNode l, generateGlslNode r with
      | some ls, some rs => some (oi.glsl ++ "(" ++ ls ++ ", " ++ rs ++ ")")
      | _, _ => none
  | .FunctionCall f args =>
    match FUNCTIONS.lookup f with
    | none => none
    | some fi =>
      match generateGlslArgs args with
      | some ss => some (fi.glsl ++ "(" ++ String.intercalate ", " ss ++ ")")
      | none => none
  | .UnaryMinus a =>
    match generateGlslNode a with
    | some s => some ("c_mul(vec2(-1.0, 0.0), " ++ s ++ ")")
    | none => none

def generateGlslArgs : List ASTNode → Option (List String)
  | [] => some []
  | a :: rest =>
    match generateGlslNode a, generateGlslArgs rest with
    | some s, some ss => some (s :: ss)
    | _, _ => none

end

def generateGlsl (ast : ASTNode) : Option String :=
  (generateGlslNode ast).map
    (fun b => "vec2 F_Z(vec2 z) \x7b\n    return " ++ b ++ ";\n\x7d")

/-- Well-formedness of parser output: every `FunctionCall` names a
`FUNCTIONS` entry and carries exactly its arity many arguments, every
`Variable` names a `CONSTANTS` entry or the free variable `z`, and every
`BinaryOperation` carries one of the five operator symbols.  These are
exactly the conditions under which the symbol-table lookups of both code
generators succeed. -/
inductive Proper : ASTNode → Prop
  | const (value : ℚ) : Proper (.Constant value)
  | var (name : String) :
      (CONSTANTS.lookup name).isSome ∨ name = "z" → Proper (.Variable name)
  | binop (op : String) (l r : ASTNode) (oi : OperatorInfo) :
      OPERATORS.lookup op = some oi → Proper l → Proper r →
      Proper (.BinaryOperation op l r)
  | call (f : String) (args : List ASTNode) (fi : FunctionInfo) :
      FUNCTIONS.lookup f = some fi → args.length = fi.arity →
      (∀ a ∈ args, Proper a) → Proper (.FunctionCall f args)
  | uminus (a : ASTNode) : Proper a → Proper (.UnaryMinus a)

/-! ### IEEE special-value model of the arithmetic module (`complex.ts`)

The claims about division/inverse by zero are about IEEE-754 Infinity and
NaN propagation, so the module is embedded a second time over a value type
that carries those special values explicitly; finite values are exact
rationals (rounding and overflow of finite arithmetic are immaterial to
those claims).  Negative zero is not distinguished; it plays no role in
the claims (`-0 === 0` in JS, and 0*Infinity is NaN for either zero). -/

inductive FpVal : Type
  | fin (q : ℚ) | inf | ninf | nan
deriving DecidableEq, Repr

def fneg : FpVal → FpVal
  | .fin q => .fin (-q)
  | .inf => .ninf
  | .ninf => .inf
  | .nan => .nan

/-- IEEE addition. -/
def fadd : FpVal → FpVal → FpVal
  | .nan, _ => .nan
  | _, .nan => .nan
  | .inf, .ninf => .nan
  | .ninf, .inf => .nan
  | .inf, _ => .inf
  | _, .inf => .inf
  | .ninf, _ => .ninf
  | _, .ninf => .ninf
  | .fin a, .fin b => .fin (a + b)

/-- IEEE subtraction, `a - b = a + (-b)` exactly (also on special values). -/
def fsub (a b : FpVal) : FpVal := fadd a (fneg b)

/-- IEEE multiplication; `0 * ±Infinity = NaN`. -/
def fmul : FpVal → FpVal → FpVal
  | .nan, _ => .nan
  | _, .nan => .nan
  | .inf, .inf => .inf
  | .inf, .ninf => .ninf
  | .ninf, .inf => .ninf
  | .ninf, .ninf => .inf
  | .inf, .fin b => if 0 < b then .inf else if b < 0 then .ninf else .nan
  | .fin a, .inf => if 0 < a then .inf else if a < 0 then .ninf else .nan
  | .ninf, .fin b => if 0 < b then .ninf else if b < 0 then .inf else .nan
  | .fin a, .ninf => if 0 < a then .ninf else if a < 0 then .inf else .nan
  | .fin a, .fin b => .fin (a * b)

/-- IEEE division (without negative zero: a nonzero finite value divided by
zero gets the sign-matching infinity, `0/0 = NaN`). -/
def fdiv : FpVal → FpVal → FpVal
  | .nan, _ => .nan
  | _, .nan => .nan
  | .inf, .inf => .nan
  | .inf, .ninf => .nan
  | .ninf, .inf => .nan
  | .ninf, .ninf => .nan
  | .inf, .fin b => if 0 ≤ b then .inf else .ninf
  | .ninf, .fin b => if 0 ≤ b then .ninf else .inf
  | .fin _, .inf => .fin 0
  | .fin _, .ninf => .fin 0
  | .fin a, .fin b =>
    if b = 0 then (if a = 0 then .nan else if 0 < a then .inf else .ninf)
    else .fin (a / b)

/-- The complex-number class over IEEE values. -/
structure FComplex where
  re : FpVal
  im : FpVal
deriving DecidableEq, Repr

namespace FComplex

def add (a b : FComplex) : FComplex := ⟨fadd a.re b.re, fadd a.im b.im⟩

def sub (a b : FComplex) : FComplex := ⟨fsub a.re b.re, fsub a.im b.im⟩

def mul (a b : FComplex) : FComplex :=
  ⟨fsub (fmul a.re b.re) (fmul a.im b.im), fadd (fmul a.re b.im) (fmul a.im b.re)⟩

/-- `Complex.inv`: `d === 0` (which NaN fails and any nonzero value fails)
returns the `(Infinity, Infinity)` sentinel. -/
def inv (z : FComplex) : FComplex :=
  let d := fadd (fmul z.re z.re) (fmul z.im z.im)
  if d = .fin 0 then ⟨.inf, .inf⟩
  else ⟨fdiv z.re d, fdiv (fneg z.im) d⟩

/-- `Complex.div(a, b) = Complex.mul(a, Complex.inv(b))`. -/
def div (a b : FComplex) : FComplex := mul a (inv b)

end FComplex

/-! ### Real-valued model of the arithmetic module (`complex.ts`) and of
the evaluator produced by `generateJs` + `new Function`.

Finite doubles and their transcendental operations are idealized as exact
real numbers (the claims about concrete evaluations are stated up to this
idealization; the values involved are exact).  `Math.pow(r, x)` with
`r > 0` coincides with the real power `r ^ x`; in `pow` below the base is
`mag z > 0` whenever the zero-base branch is not taken. -/

open scoped Classical

structure Complex where
  re : ℝ
  im : ℝ

namespace Complex

def add (a b : Complex) : Complex := ⟨a.re + b.re, a.im + b.im⟩

def sub (a b : Complex) : Complex := ⟨a.re - b.re, a.im - b.im⟩

def mul (a b : Complex) : Complex :=
  ⟨a.re * b.re - a.im * b.im, a.re * b.im + a.im * b.re⟩

noncomputable def mag (z : Complex) : ℝ := Real.sqrt (z.re * z.re + z.im * z.im)

def mag2 (z : Complex) : ℝ := z.re * z.re + z.im * z.im

noncomputable def arg (z : Complex) : ℝ := satan2 z.im z.re

/-- `Complex.inv`.  The `d === 0` branch of the source returns the IEEE
sentinel `(Infinity, Infinity)`, which has no counterpart in the real
idealization; that branch is modelled exactly in `FComplex.inv`, and here
it is given the placeholder value `(0, 0)` (no evaluator claim divides by
zero). -/
noncomputable def inv (z : Complex) : Complex :=
  let d := z.re * z.re + z.im * z.im
  if d = 0 then ⟨0, 0⟩
  else ⟨z.re / d, -z.im / d⟩

noncomputable def div (a b : Complex) : Complex := mul a (inv b)

/-- `Complex.pow(z, p)`: zero base returns zero immediately; otherwise the
polar formula. -/
noncomputable def pow (z p : Complex) : Complex :=
  if z.re = 0 ∧ z.im = 0 then ⟨0, 0⟩
  else
    let r := mag z
    let theta := arg z
    let log_r := Real.log r
    let newMag := r ^ p.re * Real.exp (-p.im * theta)
    let newAngle := p.re * theta + p.im * log_r
    ⟨newMag * Real.cos newAngle, newMag * Real.sin newAngle⟩

noncomputable def exp (z : Complex) : Complex :=
  let e_re := Real.exp z.re
  ⟨e_re * Real.cos z.im, e_re * Real.sin z.im⟩

noncomputable def log (z : Complex) : Complex := ⟨Real.log (mag z), arg z⟩

noncomputable def sqrt (z : Complex) : Complex := pow z ⟨0.5, 0⟩

noncomputable def sin (z : Complex) : Complex :=
  ⟨Real.sin z.re * Real.cosh z.im, Real.cos z.re * Real.sinh z.im⟩

noncomputable def cos (z : Complex) : Complex :=
  ⟨Real.cos z.re * Real.cosh z.im, -(Real.sin z.re) * Real.sinh z.im⟩

noncomputable def sinh (z : Complex) : Complex :=
  ⟨Real.sinh z.re * Real.cos z.im, Real.cosh z.re * Real.sin z.im⟩

noncomputable def cosh (z : Complex) : Complex :=
  ⟨Real.cosh z.re * Real.cos z.im, Real.sinh z.re * Real.sin z.im⟩

end Complex

/-- Values of the `CONSTANTS` table entries (`Math.PI`, `Math.E`, `i`),
with the same keys as `CONSTANTS`. -/
noncomputable def constValue (name : String) : Option Complex :=
  if name = "pi" then some ⟨Real.pi, 0⟩
  else if name = "e" then some ⟨Real.exp 1, 0⟩
  else if name = "i" then some ⟨0, 1⟩
  else none

/-- Behavior of the static methods `Complex.add` ... `Complex.pow` that the
generated code `Complex.<name>(...)` calls, by method name and argument
list.  Call shapes the generated code never produces (a name that is not a
method, or an argument list not matching the method's parameters — ruled out
for parser output by `Proper`) get an arbitrary placeholder. -/
noncomputable def jsCall (name : String) (args : List Complex) : Complex :=
  match name, args with
  | "add", [a, b] => Complex.add a b
  | "sub", [a, b] => Complex.sub a b
  | "mul", [a, b] => Complex.mul a b
  | "div", [a, b] => Complex.div a b
  | "pow", [a, b] => Complex.pow a b
  | "sin", [a] => Complex.sin a
  | "cos", [a] => Complex.cos a
  | "sinh", [a] => Complex.sinh a
  | "cosh", [a] => Complex.cosh a
  | "exp", [a] => Complex.exp a
  | "log", [a] => Complex.log a
  | "sqrt", [a] => Complex.sqrt a
  | _, _ => ⟨0, 0⟩

mutual

/-- Denotation of the evaluator that `Expression.parse` builds from an AST:
`generateJsNode` emits, node for node, `new Complex(v, 0)` for constants,
the constant literal or `z` for variables, `Complex.<method>(...)` for
operations and calls, and `Complex.mul(new Complex(-1, 0), ...)` for unary
minus; running the compiled function on `z` therefore computes exactly this
structural interpretation.  The `none`-lookup arms mirror ASTs on which
`generateJs` faults (no evaluator exists); they get a placeholder value. -/
noncomputable def evalAST : ASTNode → Complex → Complex
  | .Constant v, _ => ⟨(v : ℝ), 0⟩
  | .Variable name, z =>
    match constValue name with
    | some c => c
    | none => z
  | .BinaryOperation op l r, z =>
    match OPERATORS.lookup op with
    | some oi => jsCall oi.jsName [evalAST l z, evalAST r z]
    | none => ⟨0, 0⟩
  | .FunctionCall f args, z =>
    match FUNCTIONS.lookup f with
    | some fi => jsCall fi.jsName (evalArgs args z)
    | none => ⟨0, 0⟩
  | .UnaryMinus a, z => Complex.mul ⟨-1, 0⟩ (evalAST a z)

/-- Denotations of an argument list. -/
noncomputable def evalArgs : List ASTNode → Complex → List Complex
  | [], _ => []
  | a :: rest, z => evalAST a z :: evalArgs rest z

end

/-- The shader library's `c_pow` (complex.glsl): `length(z) == 0.0` returns
`vec2(0.0)`; otherwise the same polar formula as the host module. -/
noncomputable def c_pow (z p : Complex) : Complex :=
  let r := Complex.mag z
  if r = 0 then ⟨0, 0⟩
  else
    let theta := satan2 z.im z.re
    let log_r := Real.log r
    let new_mag := r ^ p.re * Real.exp (-p.im * theta)
    let new_angle := p.re * theta + p.im * log_r
    ⟨new_mag * Real.cos new_angle, new_mag * Real.sin new_angle⟩

/-! ### Expression facade (`expression.ts`) -/

/-- The facade's stored evaluator: the default `(z) => z` set by the field
initializer, or a function compiled from generated code by
`new Function('z', 'Complex', 'return ' + jsCode)` (which succeeds on the
well-formed expressions `generateJs` emits). -/
inductive JsFun : Type
  | identityDefault
  | compiled (code : String)
deriving DecidableEq, Repr

/-- The mutable state of an `Expression` object: `this.ast` and
`this.jsFunction`. -/
structure FacadeState where
  ast : Option ASTNode
  jsFunction : JsFun

/-- One call of `Expression.parse(source)` on a facade in state `st`:
returns the state after the call together with the raised error, if any.
The source assigns `this.ast = parseTokens(tokens)` *before* running
`generateJs`, so a fault inside `generateJs` would leave the new AST with
the stale evaluator — that is the `{st with ast := some ast}` arm. -/
def Expression.parse (st : FacadeState) (source : String) :
    FacadeState × Option PErr :=
  match tokenize source with
  | .error e => (st, some e)
  | .ok tokens =>
    match parseTokens tokens with
    | .error e => (st, some e)
    | .ok ast =>
      match generateJs ast with
      | none => ({ st with ast := some ast }, some .typeError)
      | some code => (⟨some ast, .compiled code⟩, none)

/-! ### Parser invariants -/

/-- Invariant of operator-stack entries during parsing: a pushed token is a
left parenthesis, a function identifier present in `FUNCTIONS`, or an
operator token present in `OPERATORS`. -/
def entryOK : StackEntry → Prop
  | .unaryMinus => True
  | .tokE t =>
    t.type = .LeftParen ∨
    (t.type = .Identifier ∧ (FUNCTIONS.lookup t.value).isSome) ∨
    (t.type = .Operator ∧ (OPERATORS.lookup t.value).isSome)

/-- Precondition under which `applyOperator` produces well-formed nodes:
the entry is the unary-minus marker, a function identifier present in
`FUNCTIONS`, or a non-identifier token whose value is in `OPERATORS`. -/
def appOK : StackEntry → Prop
  | .unaryMinus => True
  | .tokE t =>
    (t.type = .Identifier ∧ (FUNCTIONS.lookup t.value).isSome) ∨
    (t.type ≠ .Identifier ∧ (OPERATORS.lookup t.value).isSome)

/-- Tokens whose `Operator` entries all carry one of the five operator
symbols — the shape `tokenize` guarantees. -/
def OpWF (ts : List Token) : Prop :=
  ∀ t ∈ ts, t.type = .Operator → (OPERATORS.lookup t.value).isSome

end CPlot

deriving instance DecidableEq for Except

namespace CPlot

theorem opChar_cases {c : Char} (h : isOpChar c = true) :
    c = '+' ∨ c = '-' ∨ c = '*' ∨ c = '/' ∨ c = '^' := by
  simpa only [isOpChar, Bool.or_eq_true, decide_eq_true_eq, or_assoc] using h

theorem wordStart_not_opChar {c : Char} (h : isWordStart c = true) :
    isOpChar c = false := by
  by_contra hne
  rcases opChar_cases (Bool.ne_false_iff.mp hne) with rfl | rfl | rfl | rfl | rfl <;>
    exact absurd h (by decide)

theorem wordChar_not_opChar {c : Char} (h : isWordChar c = true) :
    isOpChar c = false := by
  by_contra hne
  rcases opChar_cases (Bool.ne_false_iff.mp hne) with rfl | rfl | rfl | rfl | rfl <;>
    exact absurd h (by decide)

theorem digit_not_opChar {c : Char} (h : c.isDigit = true) :
    isOpChar c = false := by
  by_contra hne
  rcases opChar_cases (Bool.ne_false_iff.mp hne) with rfl | rfl | rfl | rfl | rfl <;>
    exact absurd h (by decide)

/-- Every lexeme produced by one regex match either contains no operator
character (identifier, numeric, parenthesis and comma lexemes) or is one
of the five single-character operator lexemes. -/
theorem munch_goodLex {l : List Char} {lex : String} {rest : List Char}
    (h : munch l = some (lex, rest)) :
    lex.data.all (fun c => !(isOpChar c)) = true ∨
    lex ∈ ["+", "-", "*", "/", "^"] := by
  match l with
  | [] => simp [munch] at h
  | c :: cs =>
    rw [munch] at h
    split_ifs at h with hw hd hop
    · simp only [Option.some.injEq, Prod.mk.injEq] at h
      obtain ⟨rfl, -⟩ := h
      left
      simp only [List.all_eq_true, Bool.not_eq_true']
      intro x hx
      rcases List.mem_cons.mp hx with rfl | hx
      · exact wordStart_not_opChar hw
      · exact wordChar_not_opChar (List.mem_takeWhile_imp hx)
    · left
      split at h
      · simp only [Option.some.injEq, Prod.mk.injEq] at h
        obtain ⟨rfl, -⟩ := h
        simp only [List.all_eq_true, Bool.not_eq_true']
        intro x hx
        simp only [List.mem_cons, List.mem_append, or_assoc] at hx
        rcases hx with rfl | hx | rfl | hx
        · exact digit_not_opChar hd
        · exact digit_not_opChar (List.mem_takeWhile_imp hx)
        · decide
        · exact digit_not_opChar (List.mem_takeWhile_imp hx)
      · simp only [Option.some.injEq, Prod.mk.injEq] at h
        obtain ⟨rfl, -⟩ := h
        simp only [List.all_eq_true, Bool.not_eq_true']
        intro x hx
        rcases List.mem_cons.mp hx with rfl | hx
        · exact digit_not_opChar hd
        · exact digit_not_opChar (List.mem_takeWhile_imp hx)
    · simp only [Option.some.injEq, Prod.mk.injEq] at h
      obtain ⟨rfl, -⟩ := h
      by_cases hoc : isOpChar c = true
      · right
        rcases opChar_cases hoc with rfl | rfl | rfl | rfl | rfl <;> simp
      · left
        have hf : isOpChar c = false := by simpa using hoc
        simp [hf]

/-- Every lexeme of a scan is operator-character-free or one of the five
operator lexemes. -/
theorem scan_goodLex : ∀ (n : ℕ) (cs : List Char), ∀ s ∈ scan n cs,
    s.data.all (fun c => !(isOpChar c)) = true ∨ s ∈ ["+", "-", "*", "/", "^"] := by
  intro n
  induction n with
  | zero => intro cs s hs; simp [scan] at hs
  | succ n ih =>
    intro cs s hs
    match cs with
    | [] => simp [scan] at hs
    | c :: cs2 =>
      rw [scan] at hs
      cases hm : munch (c :: cs2) with
      | none => rw [hm] at hs; exact ih cs2 s hs
      | some p =>
        obtain ⟨lex, rest⟩ := p
        rw [hm] at hs
        rcases List.mem_cons.mp hs with rfl | hs
        · exact munch_goodLex hm
        · exact ih rest s hs

/-- Every `Operator` token produced by `tokenize` carries one of the five
operator symbols, hence hits the `OPERATORS` table. -/
theorem tokenize_opWF {input : String} {ts : List Token}
    (h : tokenize input = .ok ts) : OpWF ts := by
  intro t ht hty
  simp only [tokenize] at h
  split_ifs at h with h0 h1
  simp only [Except.ok.injEq] at h
  subst h
  obtain ⟨s, hs, rfl⟩ := List.mem_map.mp ht
  have hgood := scan_goodLex _ _ s hs
  by_cases hnum : jsParseFloatIsNum s = true
  · rw [classify, if_pos hnum] at hty
    simp at hty
  · by_cases hany : s.data.any isOpChar = true
    · rcases hgood with hall | hmem
      · exfalso
        obtain ⟨x, hx, hxop⟩ := List.any_eq_true.mp hany
        have := List.all_eq_true.mp hall x hx
        simp [hxop] at this
      · rw [classify, if_neg (by simp [hnum]), if_pos hany]
        simp only [List.mem_cons, List.not_mem_nil, or_false] at hmem
        rcases hmem with rfl | rfl | rfl | rfl | rfl <;> decide
    · rw [classify, if_neg (by simp [hnum]), if_neg (by simp [hany])] at hty
      split_ifs at hty

theorem appOK_unaryMinus : appOK .unaryMinus := trivial

theorem appOK_fn {t : Token} (h1 : t.type = .Identifier)
    (h2 : (FUNCTIONS.lookup t.value).isSome) : appOK (.tokE t) := Or.inl ⟨h1, h2⟩

theorem appOK_op {t : Token} (h1 : t.type ≠ .Identifier)
    (h2 : (OPERATORS.lookup t.value).isSome) : appOK (.tokE t) := Or.inr ⟨h1, h2⟩

theorem appOK_tokE {t : Token} (h : appOK (.tokE t)) :
    (t.type = .Identifier ∧ (FUNCTIONS.lookup t.value).isSome) ∨
    (t.type ≠ .Identifier ∧ (OPERATORS.lookup t.value).isSome) := h

theorem entryOK_tokE {t : Token} (h : entryOK (.tokE t)) :
    t.type = .LeftParen ∨
    (t.type = .Identifier ∧ (FUNCTIONS.lookup t.value).isSome) ∨
    (t.type = .Operator ∧ (OPERATORS.lookup t.value).isSome) := h

/-- `applyOperator` preserves well-formedness of the output queue when the
entry satisfies `appOK`. -/
theorem applyOperator_proper {out : List ASTNode} {e : StackEntry} {out2 : List ASTNode}
    (hout : ∀ a ∈ out, Proper a) (he : appOK e)
    (h : applyOperator out e = .ok out2) : ∀ a ∈ out2, Proper a := by
  match e with
  | .unaryMinus =>
    rcases out with _ | ⟨operand, rest⟩
    · simp [applyOperator] at h
    · simp only [applyOperator, Except.ok.injEq] at h
      subst h
      intro a ha
      rcases List.mem_cons.mp ha with rfl | ha
      · exact Proper.uminus _ (hout _ (List.mem_cons_self _ _))
      · exact hout _ (List.mem_cons_of_mem _ ha)
  | .tokE t =>
    by_cases hid : t.type = .Identifier
    · have hF : (FUNCTIONS.lookup t.value).isSome := by
        rcases appOK_tokE he with ⟨-, hF⟩ | ⟨hnid, -⟩
        · exact hF
        · exact absurd hid hnid
      obtain ⟨fi, hfi⟩ := Option.isSome_iff_exists.mp hF
      simp only [applyOperator, if_pos hid, hfi] at h
      split_ifs at h with hlen
      simp only [Except.ok.injEq] at h
      subst h
      intro a ha
      rcases List.mem_cons.mp ha with rfl | ha
      · refine Proper.call _ _ fi hfi ?_ ?_
        · rw [List.length_reverse, List.length_take]
          omega
        · intro x hx
          exact hout _ (List.take_subset _ _ (List.mem_reverse.mp hx))
      · exact hout _ (List.drop_subset _ _ ha)
    · have hO : (OPERATORS.lookup t.value).isSome := by
        rcases appOK_tokE he with ⟨hid2, -⟩ | ⟨-, hO⟩
        · exact absurd hid2 hid
        · exact hO
      obtain ⟨oi, hoi⟩ := Option.isSome_iff_exists.mp hO
      rcases out with _ | ⟨r, _ | ⟨l, rest⟩⟩
      · simp [applyOperator, if_neg hid] at h
      · simp [applyOperator, if_neg hid] at h
      · simp only [applyOperator, if_neg hid, Except.ok.injEq] at h
        subst h
        intro a ha
        rcases List.mem_cons.mp ha with rfl | ha
        · exact Proper.binop _ _ _ oi hoi
            (hout _ (List.mem_cons_of_mem _ (List.mem_cons_self _ _)))
            (hout _ (List.mem_cons_self _ _))
        · exact hout _ (List.mem_cons_of_mem _ (List.mem_cons_of_mem _ ha))

/-- The operator-comparison pop loop preserves both invariants. -/
theorem popWhileOps_inv {op1 : String} :
    ∀ {stack : List StackEntry} {out : List ASTNode} {out2 stack2},
    (∀ a ∈ out, Proper a) → (∀ e ∈ stack, entryOK e) →
    popWhileOps op1 out stack = .ok (out2, stack2) →
    (∀ a ∈ out2, Proper a) ∧ (∀ e ∈ stack2, entryOK e) := by
  intro stack
  induction stack with
  | nil =>
    intro out out2 stack2 hout hstack h
    simp only [popWhileOps, Except.ok.injEq, Prod.mk.injEq] at h
    obtain ⟨rfl, rfl⟩ := h
    exact ⟨hout, by simp⟩
  | cons e rest ih =>
    intro out out2 stack2 hout hstack h
    have hstack2 : ∀ x ∈ rest, entryOK x :=
      fun x hx => hstack x (List.mem_cons_of_mem _ hx)
    match e with
    | .unaryMinus =>
      cases hap : applyOperator out .unaryMinus with
      | error err => simp [popWhileOps, hap] at h
      | ok out3 =>
        simp only [popWhileOps, hap] at h
        exact ih (applyOperator_proper hout appOK_unaryMinus hap) hstack2 h
    | .tokE t =>
      by_cases hlp : t.type = .LeftParen
      · simp only [popWhileOps, if_pos hlp, Except.ok.injEq, Prod.mk.injEq] at h
        obtain ⟨rfl, rfl⟩ := h
        exact ⟨hout, hstack⟩
      · by_cases hidn : t.type = .Identifier
        · simp only [popWhileOps, if_neg hlp, if_pos hidn, Except.ok.injEq,
            Prod.mk.injEq] at h
          obtain ⟨rfl, rfl⟩ := h
          exact ⟨hout, hstack⟩
        · cases h1 : OPERATORS.lookup op1 with
          | none => simp [popWhileOps, if_neg hlp, if_neg hidn, h1] at h
          | some i1 =>
            cases h2 : OPERATORS.lookup t.value with
            | none => simp [popWhileOps, if_neg hlp, if_neg hidn, h1, h2] at h
            | some i2 =>
              simp only [popWhileOps, if_neg hlp, if_neg hidn, h1, h2] at h
              split_ifs at h with hcmp
              · cases hap : applyOperator out (.tokE t) with
                | error err => simp [hap] at h
                | ok out3 =>
                  simp only [hap] at h
                  refine ih (applyOperator_proper hout ?_ hap) hstack2 h
                  exact appOK_op hidn (by simp [h2])
              · simp only [Except.ok.injEq, Prod.mk.injEq] at h
                obtain ⟨rfl, rfl⟩ := h
                exact ⟨hout, hstack⟩

/-- The right-parenthesis pop loop preserves both invariants. -/
theorem popUntilLParen_inv :
    ∀ {stack : List StackEntry} {out : List ASTNode} {out2 stack2},
    (∀ a ∈ out, Proper a) → (∀ e ∈ stack, entryOK e) →
    popUntilLParen out stack = .ok (out2, stack2) →
    (∀ a ∈ out2, Proper a) ∧ (∀ e ∈ stack2, entryOK e) := by
  intro stack
  induction stack with
  | nil =>
    intro out out2 stack2 hout hstack h
    simp [popUntilLParen] at h
  | cons e rest ih =>
    intro out out2 stack2 hout hstack h
    have hstack2 : ∀ x ∈ rest, entryOK x :=
      fun x hx => hstack x (List.mem_cons_of_mem _ hx)
    match e with
    | .unaryMinus =>
      cases hap : applyOperator out .unaryMinus with
      | error err => simp [popUntilLParen, hap] at h
      | ok out3 =>
        simp only [popUntilLParen, hap] at h
        exact ih (applyOperator_proper hout appOK_unaryMinus hap) hstack2 h
    | .tokE t =>
      by_cases hlp : t.type = .LeftParen
      · rcases rest with _ | ⟨e2, rest2⟩
        · simp only [popUntilLParen, if_pos hlp, Except.ok.injEq, Prod.mk.injEq] at h
          obtain ⟨rfl, rfl⟩ := h
          exact ⟨hout, by simp⟩
        rcases e2 with f | _
        swap
        · simp only [popUntilLParen, if_pos hlp, Except.ok.injEq, Prod.mk.injEq] at h
          obtain ⟨rfl, rfl⟩ := h
          exact ⟨hout, hstack2⟩
        · by_cases hfid : f.type = .Identifier
          · have hef := hstack2 (.tokE f) (List.mem_cons_self _ _)
            have hF : (FUNCTIONS.lookup f.value).isSome := by
              rcases hef with h1 | ⟨-, h2⟩ | ⟨h3, -⟩
              · rw [hfid] at h1; exact absurd h1 (by decide)
              · exact h2
              · rw [hfid] at h3; exact absurd h3 (by decide)
            cases hap : applyOperator out (.tokE f) with
            | error err =>
              simp [popUntilLParen, if_pos hlp, if_pos hfid, hap] at h
            | ok out3 =>
              simp only [popUntilLParen, if_pos hlp, if_pos hfid, hap,
                Except.ok.injEq, Prod.mk.injEq] at h
              obtain ⟨rfl, rfl⟩ := h
              refine ⟨applyOperator_proper hout (appOK_fn hfid hF) hap, ?_⟩
              exact fun x hx => hstack2 x (List.mem_cons_of_mem _ hx)
          · simp only [popUntilLParen, if_pos hlp, if_neg hfid, Except.ok.injEq,
              Prod.mk.injEq] at h
            obtain ⟨rfl, rfl⟩ := h
            exact ⟨hout, hstack2⟩
      · have het := entryOK_tokE (hstack (.tokE t) (List.mem_cons_self _ _))
        have happ : appOK (.tokE t) := by
          rcases het with h1 | ⟨h2a, h2b⟩ | ⟨h3a, h3b⟩
          · exact absurd h1 hlp
          · exact appOK_fn h2a h2b
          · refine appOK_op ?_ h3b
            intro hc
            rw [h3a] at hc
            exact absurd hc (by decide)
        cases hap : applyOperator out (.tokE t) with
        | error err => simp [popUntilLParen, if_neg hlp, hap] at h
        | ok out3 =>
          simp only [popUntilLParen, if_neg hlp, hap] at h
          exact ih (applyOperator_proper hout happ hap) hstack2 h

/-- The final drain loop preserves output-queue well-formedness. -/
theorem drain_proper :
    ∀ {stack : List StackEntry} {out out2 : List ASTNode},
    (∀ a ∈ out, Proper a) → (∀ e ∈ stack, entryOK e) →
    drain out stack = .ok out2 → ∀ a ∈ out2, Proper a := by
  intro stack
  induction stack with
  | nil =>
    intro out out2 hout hstack h
    simp only [drain, Except.ok.injEq] at h
    subst h
    exact hout
  | cons e rest ih =>
    intro out out2 hout hstack h
    have hstack2 : ∀ x ∈ rest, entryOK x :=
      fun x hx => hstack x (List.mem_cons_of_mem _ hx)
    match e with
    | .unaryMinus =>
      cases hap : applyOperator out .unaryMinus with
      | error err => simp [drain, hap] at h
      | ok out3 =>
        simp only [drain, hap] at h
        exact ih (applyOperator_proper hout appOK_unaryMinus hap) hstack2 h
    | .tokE t =>
      by_cases hlp : t.type = .LeftParen
      · simp [drain, if_pos hlp] at h
      · have het := entryOK_tokE (hstack (.tokE t) (List.mem_cons_self _ _))
        have happ : appOK (.tokE t) := by
          rcases het with h1 | ⟨h2a, h2b⟩ | ⟨h3a, h3b⟩
          · exact absurd h1 hlp
          · exact appOK_fn h2a h2b
          · refine appOK_op ?_ h3b
            intro hc
            rw [h3a] at hc
            exact absurd hc (by decide)
        cases hap : applyOperator out (.tokE t) with
        | error err => simp [drain, if_neg hlp, hap] at h
        | ok out3 =>
          simp only [drain, if_neg hlp, hap] at h
          exact ih (applyOperator_proper hout happ hap) hstack2 h

/-- If a two-level error guard evaluated to a success, the guarded body is
that success. -/
theorem ok_of_ite_error {β : Type} {c1 c2 : Prop} [Decidable c1] [Decidable c2]
    {e1 e2 : PErr} {body : Except PErr β} {x : β}
    (h : (if c1 then Except.error e1 else if c2 then Except.error e2 else body) =
      .ok x) : body = .ok x := by
  split_ifs at h
  simp_all

/-- The main token loop preserves both invariants, provided every operator
token carries one of the five operator symbols. -/
theorem shuntLoop_inv :
    ∀ {ts : List Token} {last : Option Token} {out : List ASTNode}
      {stack : List StackEntry} {out2 stack2},
    OpWF ts → (∀ a ∈ out, Proper a) → (∀ e ∈ stack, entryOK e) →
    shuntLoop ts last out stack = .ok (out2, stack2) →
    (∀ a ∈ out2, Proper a) ∧ (∀ e ∈ stack2, entryOK e) := by
  intro ts
  induction ts with
  | nil =>
    intro last out stack out2 stack2 hwf hout hstack h
    simp only [shuntLoop, Except.ok.injEq, Prod.mk.injEq] at h
    obtain ⟨rfl, rfl⟩ := h
    exact ⟨hout, hstack⟩
  | cons t ts ih =>
    intro last out stack out2 stack2 hwf hout hstack h
    have hwf2 : OpWF ts := fun x hx => hwf x (List.mem_cons_of_mem _ hx)
    obtain ⟨ty, v⟩ := t
    cases ty with
    | Number =>
      rw [shuntLoop.eq_def] at h
      replace h := ok_of_ite_error h
      simp only [] at h
      refine ih hwf2 ?_ hstack h
      intro a ha
      rcases List.mem_cons.mp ha with rfl | ha
      · exact Proper.const _
      · exact hout _ ha
    | Identifier =>
      rw [shuntLoop.eq_def] at h
      replace h := ok_of_ite_error h
      simp only [] at h
      cases hF : FUNCTIONS.lookup v with
      | some fi =>
        simp only [hF] at h
        refine ih hwf2 hout ?_ h
        intro e he
        rcases List.mem_cons.mp he with rfl | he
        · exact Or.inr (Or.inl ⟨rfl, by simp [hF]⟩)
        · exact hstack _ he
      | none =>
        simp only [hF] at h
        split_ifs at h with hcz
        · refine ih hwf2 ?_ hstack h
          intro a ha
          rcases List.mem_cons.mp ha with rfl | ha
          · refine Proper.var _ ?_
            simpa [Bool.or_eq_true, decide_eq_true_eq] using hcz
          · exact hout _ ha
    | Operator =>
      rw [shuntLoop.eq_def] at h
      replace h := ok_of_ite_error h
      simp only [] at h
      split_ifs at h with hum
      · refine ih hwf2 hout ?_ h
        intro e he
        rcases List.mem_cons.mp he with rfl | he
        · exact trivial
        · exact hstack _ he
      · cases hpw : popWhileOps v out stack with
        | error err => simp [hpw] at h
        | ok p =>
          obtain ⟨out3, stack3⟩ := p
          obtain ⟨hout3, hstack3⟩ := popWhileOps_inv hout hstack hpw
          simp only [hpw] at h
          refine ih hwf2 hout3 ?_ h
          intro e he
          rcases List.mem_cons.mp he with rfl | he
          · refine Or.inr (Or.inr ⟨rfl, ?_⟩)
            exact hwf ⟨.Operator, v⟩ (List.mem_cons_self _ _) rfl
          · exact hstack3 _ he
    | LeftParen =>
      rw [shuntLoop.eq_def] at h
      replace h := ok_of_ite_error h
      simp only [] at h
      refine ih hwf2 hout ?_ h
      intro e he
      rcases List.mem_cons.mp he with rfl | he
      · exact Or.inl rfl
      · exact hstack _ he
    | RightParen =>
      rw [shuntLoop.eq_def] at h
      replace h := ok_of_ite_error h
      simp only [] at h
      cases hpu : popUntilLParen out stack with
      | error err => simp [hpu] at h
      | ok p =>
        obtain ⟨out3, stack3⟩ := p
        obtain ⟨hout3, hstack3⟩ := popUntilLParen_inv hout hstack hpu
        simp only [hpu] at h
        exact ih hwf2 hout3 hstack3 h
    | Comma =>
      rw [shuntLoop.eq_def] at h
      replace h := ok_of_ite_error h
      simp only [] at h
      exact ih hwf2 hout hstack h

/-- The parser invariant: on success (for operator-wellformed tokens, as
the tokenizer produces) the resulting AST is well-formed. -/
theorem parseTokens_proper {tokens : List Token} {ast : ASTNode}
    (hwf : OpWF tokens) (h : parseTokens tokens = .ok ast) : Proper ast := by
  rw [parseTokens] at h
  cases hsl : shuntLoop tokens none [] [] with
  | error e => simp [hsl] at h
  | ok p =>
    obtain ⟨out, stack⟩ := p
    obtain ⟨hout, hstack⟩ := shuntLoop_inv hwf (by simp) (by simp) hsl
    simp only [hsl] at h
    cases hd : drain out stack with
    | error e => simp [hd] at h
    | ok outf =>
      have houtf := drain_proper hout hstack hd
      simp only [hd] at h
      match outf, houtf, h with
      | [a], houtf, h =>
        simp only [Except.ok.injEq] at h
        exact h ▸ houtf a (List.mem_cons_self _ _)

/-- An argument list whose members all generate JS code generates a JS
argument list. -/
theorem generateJsArgs_isSome {args : List ASTNode}
    (h : ∀ a ∈ args, (generateJsNode a).isSome) : (generateJsArgs args).isSome := by
  induction args with
  | nil => simp [generateJsArgs]
  | cons a rest ih =>
    obtain ⟨s1, hs1⟩ := Option.isSome_iff_exists.mp (h a (List.mem_cons_self _ _))
    obtain ⟨s2, hs2⟩ :=
      Option.isSome_iff_exists.mp (ih fun x hx => h x (List.mem_cons_of_mem _ hx))
    simp [generateJsArgs, hs1, hs2]

/-- On well-formed ASTs every symbol-table lookup of the JS generator
succeeds. -/
theorem proper_generateJsNode_isSome {a : ASTNode} (h : Proper a) :
    (generateJsNode a).isSome := by
  induction h with
  | const v => simp [generateJsNode]
  | var name hv =>
    cases hc : CONSTANTS.lookup name <;> simp [generateJsNode, hc]
  | binop op l r oi hoi hl hr ihl ihr =>
    obtain ⟨ls, hls⟩ := Option.isSome_iff_exists.mp ihl
    obtain ⟨rs, hrs⟩ := Option.isSome_iff_exists.mp ihr
    simp [generateJsNode, hoi, hls, hrs]
  | call f args fi hfi hlen hargs ihargs =>
    obtain ⟨ss, hss⟩ := Option.isSome_iff_exists.mp (generateJsArgs_isSome ihargs)
    simp [generateJsNode, hfi, hss]
  | uminus a ha iha =>
    obtain ⟨s1, hs1⟩ := Option.isSome_iff_exists.mp iha
    simp [generateJsNode, hs1]

theorem generateGlslArgs_isSome {args : List ASTNode}
    (h : ∀ a ∈ args, (generateGlslNode a).isSome) :
    (generateGlslArgs args).isSome := by
  induction args with
  | nil => simp [generateGlslArgs]
  | cons a rest ih =>
    obtain ⟨s1, hs1⟩ := Option.isSome_iff_exists.mp (h a (List.mem_cons_self _ _))
    obtain ⟨s2, hs2⟩ :=
      Option.isSome_iff_exists.mp (ih fun x hx => h x (List.mem_cons_of_mem _ hx))
    simp [generateGlslArgs, hs1, hs2]

/-- On well-formed ASTs every symbol-table lookup of the GLSL generator
succeeds. -/
theorem proper_generateGlslNode_isSome {a : ASTNode} (h : Proper a) :
    (generateGlslNode a).isSome := by
  induction h with
  | const v => simp [generateGlslNode]
  | var name hv =>
    cases hc : CONSTANTS.lookup name <;> simp [generateGlslNode, hc]
  | binop op l r oi hoi hl hr ihl ihr =>
    obtain ⟨ls, hls⟩ := Option.isSome_iff_exists.mp ihl
    obtain ⟨rs, hrs⟩ := Option.isSome_iff_exists.mp ihr
    simp [generateGlslNode, hoi, hls, hrs]
  | call f args fi hfi hlen hargs ihargs =>
    obtain ⟨ss, hss⟩ := Option.isSome_iff_exists.mp (generateGlslArgs_isSome ihargs)
    simp [generateGlslNode, hfi, hss]
  | uminus a ha iha =>
    obtain ⟨s1, hs1⟩ := Option.isSome_iff_exists.mp iha
    simp [generateGlslNode, hs1]

/-! ### Claim theorems -/

/-- C1: transactional recompilation.  For every facade state and source
string, `Expression.parse` either fails and leaves the stored AST and
evaluator exactly as they were, or succeeds and replaces both together
with values derived from the newly parsed AST.  The dangerous path — AST
assigned, then a fault in `generateJs` leaving the stale evaluator — is
unreachable because tokenizer output is operator-wellformed and parser
output is `Proper`, so `generateJs` always succeeds. -/
theorem parse_transactional (st : FacadeState) (source : String) :
    match Expression.parse st source with
    | (st2, some _) => st2 = st
    | (st2, none) =>
      ∃ a code, generateJs a = some code ∧
        st2 = ⟨some a, .compiled code⟩ := by
  unfold Expression.parse
  cases htok : tokenize source with
  | error e => simp [htok]
  | ok tokens =>
    cases hp : parseTokens tokens with
    | error e => simp [htok, hp]
    | ok ast =>
      have hprop : Proper ast := parseTokens_proper (tokenize_opWF htok) hp
      obtain ⟨code, hcode⟩ :=
        Option.isSome_iff_exists.mp (proper_generateJsNode_isSome hprop)
      have hg : generateJs ast = some code := hcode
      simp only [htok, hp, hg]
      exact ⟨ast, code, hg, rfl⟩

/-- C2: the tokenizer does NOT fail on the unconsumed character of
`"2 $ 3"`; the JS global-regex match silently steps over `$` and returns
the tokens `2`, `3`, contradicting the tokenizer's own documentation
("@throws ... if the input string ... contains invalid characters") and
the specification.  The invalid-character error is raised only when no
lexeme matches at all. -/
theorem tokenize_skips_invalid_char :
    tokenize "2 $ 3" = .ok [⟨.Number, "2"⟩, ⟨.Number, "3"⟩] := by decide

/-- C3: a `-` immediately following another operator is NOT reinterpreted
as unary minus: the operator-cannot-follow-operator validation precedes
the unary-minus special case in `parseTokens` and throws first, making
the `lastToken.type === 'Operator'` disjunct of the unary-minus condition
dead code — contradicting the code's own comment "(except for unary
minus)" and the specification. -/
theorem minus_after_operator_is_error :
    parseString "2*-3" = .error (.opAfterOp "-" "*") ∧
    parseString "2^-1" = .error (.opAfterOp "-" "^") :=
  ⟨rfl, rfl⟩

/-- C6 (counterexample): the extra argument of `sin(1,2)` is not silently
absorbed at top level; the orphaned first argument makes the final
output-queue check fail with the invalid-structure error (notably not an
arity error). -/
theorem sin_two_args_not_absorbed :
    parseString "sin(1,2)" = .error .invalidStructure := rfl

/-- C6 (amended): `pow(2)` fails with the not-enough-arguments arity
error; `sin(1,2)` never triggers a too-many-arguments error — the call is
built from the last argument only, the orphaned extra argument fails the
top-level structure check, and an enclosing call can absorb it:
`pow(sin(1,2))` parses successfully as `pow(1, sin(2))`. -/
theorem arity_handling :
    parseString "pow(2)" = .error (.notEnoughArgs "pow") ∧
    parseString "sin(1,2)" = .error .invalidStructure ∧
    parseString "pow(sin(1,2))" =
      .ok (.FunctionCall "pow" [.Constant 1, .FunctionCall "sin" [.Constant 2]]) :=
  ⟨rfl, rfl, rfl⟩

/-- C7 (counterexample): division of (1, 0) by the zero complex value
routes through `mul(a, (Infinity, Infinity))`, whose IEEE products
`1*Infinity - 0*Infinity` and `1*Infinity + 0*Infinity` are NaN
(`0 * Infinity = NaN`), so the result is `(NaN, NaN)`, not the claimed
`(Infinity, Infinity)` sentinel. -/
theorem div_by_zero_yields_nan :
    FComplex.div ⟨.fin 1, .fin 0⟩ ⟨.fin 0, .fin 0⟩ = ⟨.nan, .nan⟩ ∧
    (⟨.nan, .nan⟩ : FComplex) ≠ ⟨.inf, .inf⟩ := by
  constructor
  · norm_num [FComplex.div, FComplex.mul, FComplex.inv, fadd, fmul, fsub,
      fneg, fdiv]
  · decide

/-- C7 (amended): `inv((0,0))` returns the `(Infinity, Infinity)` sentinel
without raising an error; `div(a, (0,0))` computes
`mul(a, (Infinity, Infinity))` (also without error), whose components
follow IEEE propagation and are generally NaN rather than the sentinel —
e.g. `div((1,0),(0,0)) = (NaN, NaN)`. -/
theorem inv_div_zero_behavior :
    FComplex.inv ⟨.fin 0, .fin 0⟩ = ⟨.inf, .inf⟩ ∧
    (∀ a : FComplex, FComplex.div a ⟨.fin 0, .fin 0⟩ =
      FComplex.mul a ⟨.inf, .inf⟩) ∧
    FComplex.div ⟨.fin 1, .fin 0⟩ ⟨.fin 0, .fin 0⟩ = ⟨.nan, .nan⟩ := by
  have hinv : FComplex.inv ⟨.fin 0, .fin 0⟩ = ⟨.inf, .inf⟩ := by
    norm_num [FComplex.inv, fadd, fmul]
  refine ⟨hinv, fun a => ?_, ?_⟩
  · rw [FComplex.div, hinv]
  · norm_num [FComplex.div, FComplex.mul, FComplex.inv, fadd, fmul, fsub,
      fneg, fdiv]

/-- C9 (counterexample): the whitespace-only input `" "` is nonempty, so
it passes the `!input` check; stripping whitespace leaves nothing for the
regex to match, and `tokenize` fails with the invalid-character error,
not the empty-input error the claim requires. -/
theorem whitespace_only_invalid_chars :
    tokenize " " = .error .invalidChars ∧
    PErr.invalidChars ≠ PErr.emptyInput := ⟨by decide, by decide⟩

/-- C9 (amended): only the empty string itself fails with the empty-input
error; every nonempty whitespace-only string fails with the
invalid-character error. -/
theorem empty_and_whitespace_errors :
    tokenize "" = .error .emptyInput ∧
    ∀ s : String, s ≠ "" → s.data.all isJsSpace = true →
      tokenize s = .error .invalidChars := by
  refine ⟨by decide, ?_⟩
  intro s hne hws
  have hstrip : s.data.filter (fun c => !(isJsSpace c)) = [] := by
    rw [List.filter_eq_nil_iff]
    intro a ha
    simp [List.all_eq_true.mp hws a ha]
  simp only [tokenize, if_neg hne, hstrip]
  simp [scan]

/-- Witness for C9's amended theorem at the concrete input `" "`. -/
theorem empty_and_whitespace_errors_witness :
    tokenize " " = .error .invalidChars :=
  empty_and_whitespace_errors.2 " " (by decide) (by decide)

/-- C10 (counterexample): `parseTokens` succeeds on the raw token sequence
`1 % 2` (the `%` operator token is pushed while the stack is empty, so no
`OPERATORS` lookup ever happens), producing a `BinaryOperation` whose
operator misses the table — and both generators then miss on it. -/
theorem percent_operator_escapes_tables :
    parseTokens [⟨.Number, "1"⟩, ⟨.Operator, "%"⟩, ⟨.Number, "2"⟩] =
      .ok (.BinaryOperation "%" (.Constant 1) (.Constant 2)) ∧
    generateJs (.BinaryOperation "%" (.Constant 1) (.Constant 2)) = none ∧
    generateGlsl (.BinaryOperation "%" (.Constant 1) (.Constant 2)) = none :=
  ⟨rfl, rfl, rfl⟩

/-- C10 (amended): for token sequences whose operator tokens all carry one
of the five operator symbols — which `tokenize` guarantees — every
successful parse yields a `Proper` AST: function-call names are
`FUNCTIONS` keys with exactly the declared arity many arguments, variable
names are `CONSTANTS` keys or `"z"`, and operators are `OPERATORS` keys —
so the symbol-table lookups of both code generators never miss. -/
theorem parser_output_invariant {tokens : List Token} {ast : ASTNode}
    (hwf : OpWF tokens) (hok : parseTokens tokens = .ok ast) :
    Proper ast ∧ (generateJs ast).isSome ∧ (generateGlsl ast).isSome := by
  have hp := parseTokens_proper hwf hok
  refine ⟨hp, proper_generateJsNode_isSome hp, ?_⟩
  rw [generateGlsl, Option.isSome_map']
  exact proper_generateGlslNode_isSome hp

/-- Witness for C10's amended theorem on the token sequence of `sin(z)`. -/
theorem parser_output_invariant_witness :
    Proper (.FunctionCall "sin" [.Variable "z"]) ∧
    (generateJs (.FunctionCall "sin" [.Variable "z"])).isSome ∧
    (generateGlsl (.FunctionCall "sin" [.Variable "z"])).isSome :=
  @parser_output_invariant
    [⟨.Identifier, "sin"⟩, ⟨.LeftParen, "("⟩, ⟨.Identifier, "z"⟩,
      ⟨.RightParen, ")"⟩] (.FunctionCall "sin" [.Variable "z"])
    (by unfold OpWF; decide) rfl

/-! ### Evaluator computations -/

@[simp] theorem jsCall_add (a b : Complex) : jsCall "add" [a, b] = Complex.add a b := rfl

@[simp] theorem jsCall_sub (a b : Complex) : jsCall "sub" [a, b] = Complex.sub a b := rfl

@[simp] theorem jsCall_mul (a b : Complex) : jsCall "mul" [a, b] = Complex.mul a b := rfl

@[simp] theorem jsCall_div (a b : Complex) : jsCall "div" [a, b] = Complex.div a b := rfl

@[simp] theorem jsCall_pow (a b : Complex) : jsCall "pow" [a, b] = Complex.pow a b := rfl

@[simp] theorem jsCall_sin (a : Complex) : jsCall "sin" [a] = Complex.sin a := rfl

/-- `Complex.pow` on a positive real base with a real exponent is the real
power (the polar formula degenerates: radius is the base, angle is 0). -/
theorem pow_real_of_pos {a b : ℝ} (ha : 0 < a) :
    Complex.pow ⟨a, 0⟩ ⟨b, 0⟩ = ⟨a ^ b, 0⟩ := by
  rw [Complex.pow, if_neg (by rintro ⟨h1, -⟩; exact absurd h1 (ne_of_gt ha))]
  have hmag : Complex.mag ⟨a, 0⟩ = a := by
    rw [Complex.mag]
    simp only [mul_zero, add_zero]
    rw [show a * a = a ^ 2 by ring, Real.sqrt_sq ha.le]
  have harg : Complex.arg ⟨a, 0⟩ = 0 := by
    rw [Complex.arg, satan2]
    rw [Complex.arg_eq_zero_iff]
    exact ⟨by simpa using ha.le, rfl⟩
  simp only [hmag, harg]
  simp [Real.exp_zero, Real.cos_zero, Real.sin_zero]

/-- Witness instantiation of `pow_real_of_pos`. -/
theorem pow_real_of_pos_witness :
    Complex.pow ⟨2, 0⟩ ⟨1, 0⟩ = ⟨(2 : ℝ) ^ (1 : ℝ), 0⟩ :=
  pow_real_of_pos (by norm_num)

/-- `(-2)^2` under the polar formula: radius 2, angle pi, so the result is
`4 * (cos 2pi, sin 2pi) = (4, 0)`. -/
theorem pow_neg_two_sq : Complex.pow ⟨(-2 : ℝ), 0⟩ ⟨2, 0⟩ = ⟨4, 0⟩ := by
  rw [Complex.pow, if_neg (by rintro ⟨h1, -⟩; norm_num at h1)]
  have hmag : Complex.mag ⟨(-2 : ℝ), 0⟩ = 2 := by
    rw [Complex.mag]
    rw [show (-2 : ℝ) * -2 + 0 * 0 = 2 ^ 2 by ring,
      Real.sqrt_sq (by norm_num : (0:ℝ) ≤ 2)]
  have harg : Complex.arg ⟨(-2 : ℝ), 0⟩ = Real.pi := by
    rw [Complex.arg, satan2]
    exact Complex.arg_ofReal_of_neg (by norm_num)
  simp only [hmag, harg]
  have h22 : (2 : ℝ) ^ (2 : ℝ) = 4 := by
    rw [show (2 : ℝ) = ((2 : ℕ) : ℝ) from by norm_num, Real.rpow_natCast]
    norm_num
  norm_num [h22, Real.cos_two_pi, Real.sin_two_pi]

theorem rpow_three_two : (3 : ℝ) ^ (2 : ℝ) = 9 := by
  rw [show (2 : ℝ) = ((2 : ℕ) : ℝ) from by norm_num, Real.rpow_natCast]
  norm_num

theorem rpow_two_nine : (2 : ℝ) ^ (9 : ℝ) = 512 := by
  rw [show (9 : ℝ) = ((9 : ℕ) : ℝ) from by norm_num, Real.rpow_natCast]
  norm_num

/-- C4 (counterexample): the compiled `"-2^2"` evaluates to `(4, 0)`, not
the claimed `-4`: the parser pops the unary-minus marker before pushing
`^` (unary minus binds tighter), so the AST groups as `(-2)^2`, and the
polar `pow` gives `4 * (cos 2pi, sin 2pi) = (4, 0)` exactly. -/
theorem neg_two_pow_two_is_four :
    (parseString "-2^2").map (fun a => evalAST a ⟨0, 0⟩) = .ok ⟨4, 0⟩ ∧
    (4 : ℝ) ≠ -4 := by
  constructor
  · rw [show parseString "-2^2" =
        .ok (.BinaryOperation "^" (.UnaryMinus (.Constant 2)) (.Constant 2))
      from rfl]
    simp only [Except.map, Except.ok.injEq]
    have lpow : OPERATORS.lookup "^" = some ⟨4, .right, "c_pow", "pow"⟩ := rfl
    simp only [evalAST, lpow, jsCall_pow]
    have hm : Complex.mul ⟨(-1 : ℝ), 0⟩ ⟨((2 : ℚ) : ℝ), 0⟩ = ⟨(-2 : ℝ), 0⟩ := by
      simp [Complex.mul]
    have hc : ((2 : ℚ) : ℝ) = (2 : ℝ) := by norm_num
    rw [hm, hc, pow_neg_two_sq]
  · norm_num

/-- C4 (amended): for every input value of the free variable, the compiled
`"-2^2"` evaluates to `(4, 0)` — i.e. `(-2)^2`: unary minus is applied
before `^` (it binds tighter), matching the reduction order of the
parser's pop loop, not the claimed `-(2^2) = -4`. -/
theorem neg_two_pow_two_eval : ∀ z : Complex,
    (parseString "-2^2").map (fun a => evalAST a z) = .ok ⟨4, 0⟩ := by
  intro z
  rw [show parseString "-2^2" =
      .ok (.BinaryOperation "^" (.UnaryMinus (.Constant 2)) (.Constant 2))
    from rfl]
  simp only [Except.map, Except.ok.injEq]
  have lpow : OPERATORS.lookup "^" = some ⟨4, .right, "c_pow", "pow"⟩ := rfl
  simp only [evalAST, lpow, jsCall_pow]
  have hm : Complex.mul ⟨(-1 : ℝ), 0⟩ ⟨((2 : ℚ) : ℝ), 0⟩ = ⟨(-2 : ℝ), 0⟩ := by
    simp [Complex.mul]
  have hc : ((2 : ℚ) : ℝ) = (2 : ℝ) := by norm_num
  rw [hm, hc, pow_neg_two_sq]

/-- C5: precedence and associativity, for every input value of the free
variable: `"2+3*4"` evaluates to 14 (`*` binds tighter than `+`),
`"2^3^2"` to `2^(3^2) = 512` (`^` is right-associative), and `"2-3-4"` to
`(2-3)-4 = -5` (`-` is left-associative) — exactly, in the real-valued
semantics. -/
theorem precedence_and_associativity : ∀ z : Complex,
    (parseString "2+3*4").map (fun a => evalAST a z) = .ok ⟨14, 0⟩ ∧
    (parseString "2^3^2").map (fun a => evalAST a z) = .ok ⟨512, 0⟩ ∧
    (parseString "2-3-4").map (fun a => evalAST a z) = .ok ⟨-5, 0⟩ := by
  intro z
  refine ⟨?_, ?_, ?_⟩
  · rw [show parseString "2+3*4" =
        .ok (.BinaryOperation "+" (.Constant 2)
          (.BinaryOperation "*" (.Constant 3) (.Constant 4))) from rfl]
    simp only [Except.map, Except.ok.injEq]
    have l1 : OPERATORS.lookup "+" = some ⟨2, .left, "c_add", "add"⟩ := rfl
    have l2 : OPERATORS.lookup "*" = some ⟨3, .left, "c_mul", "mul"⟩ := rfl
    simp only [evalAST, l1, l2, jsCall_add, jsCall_mul]
    simp [Complex.add, Complex.mul]
    norm_num
  · rw [show parseString "2^3^2" =
        .ok (.BinaryOperation "^" (.Constant 2)
          (.BinaryOperation "^" (.Constant 3) (.Constant 2))) from rfl]
    simp only [Except.map, Except.ok.injEq]
    have lpow : OPERATORS.lookup "^" = some ⟨4, .right, "c_pow", "pow"⟩ := rfl
    simp only [evalAST, lpow, jsCall_pow]
    have hc2 : ((2 : ℚ) : ℝ) = (2 : ℝ) := by norm_num
    have hc3 : ((3 : ℚ) : ℝ) = (3 : ℝ) := by norm_num
    rw [hc2, hc3]
    rw [pow_real_of_pos (by norm_num : (0:ℝ) < 3), rpow_three_two]
    rw [pow_real_of_pos (by norm_num : (0:ℝ) < 2), rpow_two_nine]
  · rw [show parseString "2-3-4" =
        .ok (.BinaryOperation "-" (.BinaryOperation "-" (.Constant 2)
          (.Constant 3)) (.Constant 4)) from rfl]
    simp only [Except.map, Except.ok.injEq]
    have l1 : OPERATORS.lookup "-" = some ⟨2, .left, "c_sub", "sub"⟩ := rfl
    simp only [evalAST, l1, jsCall_sub]
    simp [Complex.sub]
    norm_num

/-- C8: both power implementations return complex zero on the zero base
without consulting the exponent: the host `Complex.pow` short-circuits on
`re = 0 and im = 0`, the shader `c_pow` on `length(z) = 0`. -/
theorem pow_zero_base :
    (∀ p : Complex, Complex.pow ⟨0, 0⟩ p = ⟨0, 0⟩) ∧
    (∀ p : Complex, c_pow ⟨0, 0⟩ p = ⟨0, 0⟩) := by
  constructor
  · intro p
    rw [Complex.pow, if_pos ⟨rfl, rfl⟩]
  · intro p
    have hmag : Complex.mag ⟨(0 : ℝ), 0⟩ = 0 := by
      rw [Complex.mag]
      norm_num
    rw [c_pow]
    simp only [hmag]
    simp

end CPlot
